import Mathlib

/-!
Verification of the resume-to-job matching engine of the rankitech backend.

The definitions below are a shallow embedding of the Python sources:
* `app/resume_matcher.py` — PDF text extraction (`PDFExtractor.extract_text`),
  the Ollama analysis client (`OllamaClient.generate_analysis`,
  `OllamaClient._parse_analysis`) and the matching engine
  (`MatchingEngine.calculate_match_score` and its helpers);
* `app/tasks.py` — the batch orchestrator `run_ai_matching`.

Python strings are modelled as Lean `String`; `str.lower` and `str.strip`
are embedded character-wise as `pyLower`/`pyStrip`; floating point scores
are modelled as rationals; external effects (the PDF libraries, the Ollama
model, the per-candidate pipeline of the orchestrator) are oracle inputs:
the value each external call returns is a parameter of the embedded
function, exactly as the Python code consumes it.
-/

/-- Embedding of Python `str.lower()` : lowercase every character. -/
def pyLower (s : String) : String := String.mk (s.data.map Char.toLower)

/-- Drop leading and trailing whitespace from a character list. -/
def stripChars (cs : List Char) : List Char :=
  ((cs.dropWhile Char.isWhitespace).reverse.dropWhile Char.isWhitespace).reverse

/-- Embedding of Python `str.strip()` : drop leading and trailing whitespace. -/
def pyStrip (s : String) : String := String.mk (stripChars s.data)

/-! ## Document text extractor (`PDFExtractor`, resume_matcher.py lines 89-136)

`extract_with_pymupdf` and `extract_with_pypdf2` both catch their own
exceptions and return `""` on failure, so each is modelled as a total
oracle string recorded in `PdfFile`.  `extract_text` is the code's control
flow over those oracles; alongside the result we record the list of
extraction methods actually invoked, in invocation order. -/

inductive ExtractionErr where
  /-- the `FileNotFoundError` raised when the path does not exist. -/
  | fileNotFound : ExtractionErr
  /-- the `ValueError "Could not extract text from PDF"`. -/
  | noText : ExtractionErr
deriving DecidableEq, Repr

inductive PdfMethod where
  | pymupdf : PdfMethod
  | pypdf2 : PdfMethod
deriving DecidableEq, Repr

structure PdfFile where
  /-- result of `os.path.exists(pdf_path)` -/
  existsOnDisk : Bool
  /-- the string `extract_with_pymupdf` would return (`""` on its own failure) -/
  pymupdfText : String
  /-- the string `extract_with_pypdf2` would return (`""` on its own failure) -/
  pypdf2Text : String

/-- Embedding of `PDFExtractor.extract_text`.  Returns the extraction result
together with the list of extraction methods invoked, in order. -/
def extract_text (f : PdfFile) : Except ExtractionErr String × List PdfMethod :=
  if f.existsOnDisk = false then
    (Except.error ExtractionErr.fileNotFound, [])
  else
    let text := f.pymupdfText
    if pyStrip text = "" then
      let text := f.pypdf2Text
      if pyStrip text = "" then
        (Except.error ExtractionErr.noText, [PdfMethod.pymupdf, PdfMethod.pypdf2])
      else
        (Except.ok (pyStrip text), [PdfMethod.pymupdf, PdfMethod.pypdf2])
    else
      (Except.ok (pyStrip text), [PdfMethod.pymupdf])

/-- C7: `extract_text` tries PyMuPDF first, falls back to PyPDF2 exactly when
the primary result is empty or whitespace-only, fails exactly when the file is
missing or both methods yield only whitespace, and on success returns the
stripped text of one of the two methods, which is nonempty. -/
theorem extract_text_contract (f : PdfFile) :
    (((extract_text f).2 ≠ []) → (extract_text f).2.head? = some PdfMethod.pymupdf) ∧
    (PdfMethod.pypdf2 ∈ (extract_text f).2 ↔
      (f.existsOnDisk = true ∧ pyStrip f.pymupdfText = "")) ∧
    ((∃ e, (extract_text f).1 = Except.error e) ↔
      (f.existsOnDisk = false ∨
        (pyStrip f.pymupdfText = "" ∧ pyStrip f.pypdf2Text = ""))) ∧
    (∀ s, (extract_text f).1 = Except.ok s →
      s ≠ "" ∧ (s = pyStrip f.pymupdfText ∨ s = pyStrip f.pypdf2Text)) := by
  unfold extract_text
  rcases f with ⟨ex, t1, t2⟩
  cases ex
  · simp
  · by_cases h1 : pyStrip t1 = ""
    · by_cases h2 : pyStrip t2 = ""
      · simp [h1, h2]
      · simp [h1, h2]
        try tauto
    · simp [h1]
      try tauto

/-- Witness for C7: on a file whose PyMuPDF result is whitespace-only and whose
PyPDF2 result is " hello ", extraction succeeds with the nonempty stripped text
"hello", and PyMuPDF was tried first. -/
theorem extract_text_contract_witness :
    ((extract_text (PdfFile.mk true "  " " hello ")).2.head? = some PdfMethod.pymupdf) ∧
    ("hello" ≠ "" ∧
      ("hello" = pyStrip "  " ∨ "hello" = pyStrip " hello ")) :=
  ⟨(extract_text_contract (PdfFile.mk true "  " " hello ")).1 (by decide),
   (extract_text_contract (PdfFile.mk true "  " " hello ")).2.2.2 "hello" (by rfl)⟩

/-! ## AI analysis client (`OllamaClient`, resume_matcher.py lines 227-350)

`generate_analysis` wraps the model call in try/except and returns a
placeholder string on any error; the model call itself is the oracle
(`Except String String`: the response text, or the exception message).
`_parse_analysis` runs regex searches such as `SKILLS_MATCH:\s*(\d+)` and
`STRENGTHS:(.*?)(?=GAPS:|RECOMMENDATIONS:|$)` (case-insensitive, DOTALL)
over the analysis text; the searches are embedded below as character-list
scans with the same leftmost-match semantics. -/

/-- Case-insensitive literal match of `pat` at the start of `s`; returns the
remaining characters on success (the `re.IGNORECASE` literal part). -/
def ciStartsRest : List Char → List Char → Option (List Char)
  | [], s => some s
  | _ :: _, [] => none
  | p :: ps, c :: cs => if p.toLower = c.toLower then ciStartsRest ps cs else none

/-- Numeric value of a run of decimal digits (Python `int` on the capture). -/
def digitsToNat (ds : List Char) : Nat :=
  ds.foldl (fun acc c => acc * 10 + (c.toNat - 48)) 0

/-- Match `LABEL:\s*(\d+)` anchored at the start of `s`: the literal label
case-insensitively, then optional whitespace, then at least one digit. -/
def matchScoreAt (label s : List Char) : Option Nat :=
  match ciStartsRest label s with
  | none => none
  | some rest =>
      let digits := (rest.dropWhile Char.isWhitespace).takeWhile Char.isDigit
      if digits = [] then none else some (digitsToNat digits)

/-- Leftmost match of `LABEL:\s*(\d+)` anywhere in the text (`re.search`). -/
def searchScore (label : List Char) : List Char → Option Nat
  | [] => none
  | c :: rest =>
      match matchScoreAt label (c :: rest) with
      | some n => some n
      | none => searchScore label rest

/-- Text following the leftmost case-insensitive occurrence of `pat`, or
`none` when `pat` does not occur. -/
def ciFindAfter (pat : List Char) : List Char → Option (List Char)
  | [] => match ciStartsRest pat [] with
      | some rest => some rest
      | none => none
  | c :: cs =>
      match ciStartsRest pat (c :: cs) with
      | some rest => some rest
      | none => ciFindAfter pat cs

/-- Lazy capture `(.*?)` under DOTALL up to the first position where one of
the `stops` labels matches (the lookahead alternatives) or where `$` matches
(end of text, or just before a final newline). -/
def takeUntilStops (stops : List (List Char)) : List Char → List Char
  | [] => []
  | c :: rest =>
      if stops.any (fun p => (ciStartsRest p (c :: rest)).isSome) then []
      else if c = '\n' ∧ rest = [] then []
      else c :: takeUntilStops stops rest

/-- dropping a whitespace run never lengthens a list (termination helper). -/
theorem length_dropWhile_le (p : Char → Bool) :
    ∀ l : List Char, (l.dropWhile p).length ≤ l.length := by
  intro l
  induction l with
  | nil => simp [List.dropWhile]
  | cons c cs ih =>
      by_cases h : p c
      · simp only [List.dropWhile, h]
        exact Nat.le_trans ih (Nat.le_succ _)
      · simp [List.dropWhile, h]

/-- termination helper: dropping from the whitespace-stripped tail shortens
the original cons cell. -/
theorem drop_dropWhile_lt (rest : List Char) (c : Char) (n : Nat) :
    (((rest.dropWhile Char.isWhitespace).drop n).length) < (c :: rest).length := by
  have h1 : ((rest.dropWhile Char.isWhitespace).drop n).length ≤
      (rest.dropWhile Char.isWhitespace).length := by
    simp [List.length_drop]
  have h2 := length_dropWhile_le Char.isWhitespace rest
  simp only [List.length_cons]
  omega

/-- Embedding of `re.findall(r'-\s*(.+)', content)` followed by
`[item.strip() for item in items if item.strip()]`: for every dash, skip the
whitespace after it; the rest of that line, stripped, is one item (a match
whose capture is whitespace-only strips to the empty string and is filtered
out, which coincides with skipping it). -/
def findallDashItems : List Char → List String
  | [] => []
  | c :: rest =>
      if c = '-' then
        let afterWs := rest.dropWhile Char.isWhitespace
        let line := afterWs.takeWhile (fun ch => ch ≠ '\n')
        if line = [] then findallDashItems rest
        else pyStrip (String.mk line) :: findallDashItems (afterWs.drop line.length)
      else findallDashItems rest
termination_by l => l.length
decreasing_by
  · simp only [List.length_cons]
    omega
  · exact drop_dropWhile_lt rest c _
  · simp only [List.length_cons]
    omega

/-- Score field extraction in `_parse_analysis`:
`min(100, max(0, int(match.group(1))))` when the label pattern matches,
`0` (the initialised default) otherwise. -/
def parseScore (label : String) (analysis : String) : Int :=
  match searchScore label.data analysis.data with
  | some n => min 100 (max 0 (n : Int))
  | none => 0

/-- List-section extraction in `_parse_analysis`: locate the section label,
capture lazily up to the next known label or `$`, then collect the dash
items; the initialised default `[]` when the label does not occur. -/
def parseSection (label : String) (stops : List String) (analysis : String) :
    List String :=
  match ciFindAfter label.data analysis.data with
  | some rest => findallDashItems (takeUntilStops (stops.map String.data) rest)
  | none => []

structure ParsedAnalysis where
  skills_match : Int
  experience_match : Int
  education_match : Int
  overall_fit : Int
  strengths : List String
  gaps : List String
  recommendations : List String
deriving Repr

/-- Embedding of `OllamaClient._parse_analysis`. -/
def parse_analysis (analysis : String) : ParsedAnalysis where
  skills_match := parseScore "SKILLS_MATCH:" analysis
  experience_match := parseScore "EXPERIENCE_MATCH:" analysis
  education_match := parseScore "EDUCATION_MATCH:" analysis
  overall_fit := parseScore "OVERALL_FIT:" analysis
  strengths := parseSection "STRENGTHS:" ["GAPS:", "RECOMMENDATIONS:"] analysis
  gaps := parseSection "GAPS:" ["RECOMMENDATIONS:"] analysis
  recommendations := parseSection "RECOMMENDATIONS:" [] analysis

/-- Embedding of `OllamaClient.generate_analysis`: the stripped model
response on success, the placeholder string on any underlying error. -/
def generate_analysis (modelResult : Except String String) : String :=
  match modelResult with
  | Except.ok response => pyStrip response
  | Except.error e => "Analysis unavailable: " ++ e

/-- Embedding of `OllamaClient.analyze_resume_match` downstream of the model
call: parse the (possibly placeholder) analysis text. -/
def analyze_resume_match (modelResult : Except String String) : ParsedAnalysis :=
  parse_analysis (generate_analysis modelResult)

/-- every `parseScore` value is clamped to [0, 100]. -/
theorem parseScore_bounds (label analysis : String) :
    0 ≤ parseScore label analysis ∧ parseScore label analysis ≤ 100 := by
  unfold parseScore
  cases h : searchScore label.data analysis.data with
  | none => simp
  | some n =>
      constructor
      · exact le_min (by norm_num) (le_max_left 0 (n : Int))
      · exact min_le_left _ _

/-- when the label occurs nowhere (case-insensitively), the score regex
cannot match anywhere. -/
theorem searchScore_eq_none (pat : List Char) :
    ∀ s : List Char, ciFindAfter pat s = none → searchScore pat s = none := by
  intro s
  induction s with
  | nil => intro _; rfl
  | cons c cs ih =>
      intro h
      cases hcs : ciStartsRest pat (c :: cs) with
      | some rest => simp [ciFindAfter, hcs] at h
      | none =>
          have hrec : ciFindAfter pat cs = none := by
            simpa [ciFindAfter, hcs] using h
          simp [searchScore, matchScoreAt, hcs]
          exact ih hrec

/-- a successful case-insensitive anchor match returns a suffix. -/
theorem ciStartsRest_suffix :
    ∀ (pat s rest : List Char), ciStartsRest pat s = some rest → rest <:+ s := by
  intro pat
  induction pat with
  | nil =>
      intro s rest h
      simp [ciStartsRest] at h
      subst h
      exact List.suffix_refl _
  | cons p ps ih =>
      intro s rest h
      cases s with
      | nil => simp [ciStartsRest] at h
      | cons c cs =>
          by_cases hc : p.toLower = c.toLower
          · have h' : ciStartsRest ps cs = some rest := by
              simpa [ciStartsRest, hc] using h
            exact (ih cs rest h').trans (List.suffix_cons c cs)
          · simp [ciStartsRest, hc] at h

/-- the text after a found label occurrence is a suffix of the scanned text. -/
theorem ciFindAfter_suffix (pat : List Char) :
    ∀ (s rest : List Char), ciFindAfter pat s = some rest → rest <:+ s := by
  intro s
  induction s with
  | nil =>
      intro rest h
      cases hcs : ciStartsRest pat [] with
      | some r =>
          have : r = rest := by simpa [ciFindAfter, hcs] using h
          subst this
          exact ciStartsRest_suffix pat [] r hcs
      | none => simp [ciFindAfter, hcs] at h
  | cons c cs ih =>
      intro rest h
      cases hcs : ciStartsRest pat (c :: cs) with
      | some r =>
          have : r = rest := by simpa [ciFindAfter, hcs] using h
          subst this
          exact ciStartsRest_suffix pat (c :: cs) r hcs
      | none =>
          have h' : ciFindAfter pat cs = some rest := by
            simpa [ciFindAfter, hcs] using h
          exact (ih rest h').trans (List.suffix_cons c cs)

/-- the lazy capture is a prefix of the text it scans. -/
theorem takeUntilStops_prefix (stops : List (List Char)) :
    ∀ s : List Char, takeUntilStops stops s <+: s := by
  intro s
  induction s with
  | nil => simp [takeUntilStops]
  | cons c cs ih =>
      unfold takeUntilStops
      by_cases h1 : stops.any (fun p => (ciStartsRest p (c :: cs)).isSome)
      · simp [h1]
      · by_cases h2 : c = '\n' ∧ cs = []
        · simp [h1, h2]
        · simpa [h1, h2] using ih

/-- without any dash there is no bullet item. -/
theorem findallDashItems_eq_nil (l : List Char) (h : '-' ∉ l) :
    findallDashItems l = [] := by
  induction l with
  | nil => simp [findallDashItems]
  | cons c cs ih =>
      have hc : ¬ c = '-' := fun hc => h (by simp [hc])
      have hcs : '-' ∉ cs := fun hm => h (List.mem_cons_of_mem c hm)
      rw [findallDashItems]
      simp only [if_neg hc]
      exact ih hcs

/-- a dash-free analysis text yields an empty section list. -/
theorem parseSection_eq_nil (label : String) (stops : List String)
    (analysis : String) (h : '-' ∉ analysis.data) :
    parseSection label stops analysis = [] := by
  unfold parseSection
  cases hf : ciFindAfter label.data analysis.data with
  | none => rfl
  | some rest =>
      have hsuf : rest <:+ analysis.data := ciFindAfter_suffix _ _ _ hf
      have hpre : takeUntilStops (stops.map String.data) rest <+: rest :=
        takeUntilStops_prefix _ _
      have hnd : '-' ∉ takeUntilStops (stops.map String.data) rest := by
        intro hmem
        exact h (hsuf.subset (hpre.subset hmem))
      simp [findallDashItems_eq_nil _ hnd]

/-- C6: the AI client's generate operation never propagates an exception (on
any underlying error it returns the "Analysis unavailable" placeholder), and
for every model-output text the parsed result has each of the four integer
scores clamped to [0, 100] (0 when its label occurs nowhere) and each of the
three list fields empty when its section label occurs nowhere or the section
holds no dash bullet; no absence makes the call fail, the parse being total. -/
theorem ollama_generate_and_parse_tolerant :
    (∀ e, generate_analysis (Except.error e) = "Analysis unavailable: " ++ e) ∧
    (∀ a : String,
      (0 ≤ (parse_analysis a).skills_match ∧ (parse_analysis a).skills_match ≤ 100) ∧
      (0 ≤ (parse_analysis a).experience_match ∧
        (parse_analysis a).experience_match ≤ 100) ∧
      (0 ≤ (parse_analysis a).education_match ∧
        (parse_analysis a).education_match ≤ 100) ∧
      (0 ≤ (parse_analysis a).overall_fit ∧ (parse_analysis a).overall_fit ≤ 100) ∧
      (ciFindAfter "SKILLS_MATCH:".data a.data = none →
        (parse_analysis a).skills_match = 0) ∧
      (ciFindAfter "EXPERIENCE_MATCH:".data a.data = none →
        (parse_analysis a).experience_match = 0) ∧
      (ciFindAfter "EDUCATION_MATCH:".data a.data = none →
        (parse_analysis a).education_match = 0) ∧
      (ciFindAfter "OVERALL_FIT:".data a.data = none →
        (parse_analysis a).overall_fit = 0) ∧
      (ciFindAfter "STRENGTHS:".data a.data = none →
        (parse_analysis a).strengths = []) ∧
      (ciFindAfter "GAPS:".data a.data = none → (parse_analysis a).gaps = []) ∧
      (ciFindAfter "RECOMMENDATIONS:".data a.data = none →
        (parse_analysis a).recommendations = []) ∧
      ('-' ∉ a.data →
        (parse_analysis a).strengths = [] ∧ (parse_analysis a).gaps = [] ∧
          (parse_analysis a).recommendations = [])) := by
  constructor
  · intro e
    rfl
  · intro a
    refine ⟨parseScore_bounds _ _, parseScore_bounds _ _, parseScore_bounds _ _,
      parseScore_bounds _ _, ?_, ?_, ?_, ?_, ?_, ?_, ?_, ?_⟩
    · intro h
      show parseScore "SKILLS_MATCH:" a = 0
      unfold parseScore
      rw [searchScore_eq_none _ _ h]
    · intro h
      show parseScore "EXPERIENCE_MATCH:" a = 0
      unfold parseScore
      rw [searchScore_eq_none _ _ h]
    · intro h
      show parseScore "EDUCATION_MATCH:" a = 0
      unfold parseScore
      rw [searchScore_eq_none _ _ h]
    · intro h
      show parseScore "OVERALL_FIT:" a = 0
      unfold parseScore
      rw [searchScore_eq_none _ _ h]
    · intro h
      show parseSection "STRENGTHS:" _ a = []
      unfold parseSection
      rw [h]
    · intro h
      show parseSection "GAPS:" _ a = []
      unfold parseSection
      rw [h]
    · intro h
      show parseSection "RECOMMENDATIONS:" _ a = []
      unfold parseSection
      rw [h]
    · intro h
      exact ⟨parseSection_eq_nil _ _ _ h, parseSection_eq_nil _ _ _ h,
        parseSection_eq_nil _ _ _ h⟩

/-- Witness for C6: on the error "connection refused" the generate call
returns the placeholder, and on a label-free model output every score is 0,
bounded in [0, 100], and every list field is empty. -/
theorem ollama_generate_and_parse_tolerant_witness :
    generate_analysis (Except.error "connection refused") =
      "Analysis unavailable: connection refused" ∧
    (parse_analysis "no labels here").skills_match = 0 ∧
    (0 ≤ (parse_analysis "no labels here").overall_fit ∧
      (parse_analysis "no labels here").overall_fit ≤ 100) ∧
    (parse_analysis "no labels here").strengths = [] ∧
    (parse_analysis "no labels here").recommendations = [] :=
  ⟨ollama_generate_and_parse_tolerant.1 "connection refused",
   ((ollama_generate_and_parse_tolerant.2 "no labels here").2.2.2.2.1 (by decide)),
   (ollama_generate_and_parse_tolerant.2 "no labels here").2.2.2.1,
   ((ollama_generate_and_parse_tolerant.2 "no labels here").2.2.2.2.2.2.2.2.1
     (by decide)),
   ((ollama_generate_and_parse_tolerant.2 "no labels here").2.2.2.2.2.2.2.2.2.2.1
     (by decide))⟩

/-! ## Matching engine (`MatchingEngine`, resume_matcher.py lines 454-595)

Scores are rationals (Python floats carry exact decimal weights here).
`Python round(x, 2)` is embedded as exact banker's rounding to two decimal
places (`pyRound2`).  The TF-IDF text similarity (scikit-learn) and the
Ollama analysis are the two external calls of `calculate_match_score`; their
return values are passed in as arguments. -/

/-- Only the fields of `ResumeData` that the matching engine reads. -/
structure ResumeData where
  skills : List String
  summary : String
  total_experience_years : ℚ

/-- Only the fields of `JobDescription` that the matching engine reads. -/
structure JobDescription where
  title : String
  company : String
  description : String
  required_skills : List String
  preferred_skills : List String
  experience_level : String
  location : String

/-- Embedding of `MatchingEngine._calculate_skills_match`: 100 for an empty
skill pool, otherwise the case-insensitive overlap ratio times 100. -/
def calculate_skills_match (resume_skills job_skills : List String) : ℚ :=
  if job_skills = [] then 100
  else
    let resume_skills_lower := resume_skills.map pyLower
    let job_skills_lower := job_skills.map pyLower
    let match_count := (job_skills_lower.filter (fun s => s ∈ resume_skills_lower)).length
    ((match_count : ℚ) / (job_skills_lower.length : ℚ)) * 100

/-- The experience band table with default `(0, 100)` for unknown labels
(`experience_levels.get(key, (0, 100))`). -/
def experience_levels (key : String) : ℚ × ℚ :=
  if key = "entry" then (0, 2)
  else if key = "junior" then (1, 3)
  else if key = "mid" then (3, 6)
  else if key = "senior" then (6, 10)
  else if key = "lead" then (8, 15)
  else if key = "principal" then (10, 20)
  else (0, 100)

/-- Embedding of `MatchingEngine._calculate_experience_match`. -/
def calculate_experience_match (experience_level : String)
    (candidate_years : ℚ) : ℚ :=
  let required_range := experience_levels (pyLower experience_level)
  if required_range.1 ≤ candidate_years ∧ candidate_years ≤ required_range.2 then
    100
  else if candidate_years < required_range.1 then
    max 0 (100 - (required_range.1 - candidate_years) * 20)
  else
    max 70 (100 - (candidate_years - required_range.2) * 5)

/-- Embedding of `MatchingEngine._analyze_skills_gap`: the required skills
(lowercased) split into those present in and those absent from the
candidate's lowercased skills, in declared order. -/
def analyze_skills_gap (resume_skills required_skills : List String) :
    List String × List String :=
  let resume_skills_lower := resume_skills.map pyLower
  let required_skills_lower := required_skills.map pyLower
  (required_skills_lower.filter (fun s => s ∈ resume_skills_lower),
   required_skills_lower.filter (fun s => s ∉ resume_skills_lower))

/-- Round to the nearest integer, ties to even (Python `round`). -/
def roundHalfEven (q : ℚ) : ℤ :=
  let f := ⌊q⌋
  let r := q - (f : ℚ)
  if r < 1 / 2 then f
  else if 1 / 2 < r then f + 1
  else if Even f then f else f + 1

/-- Embedding of Python `round(x, 2)`: banker's rounding at two decimals. -/
def pyRound2 (q : ℚ) : ℚ := ((roundHalfEven (q * 100) : ℚ)) / 100

/-- Only the fields of `MatchResult` the downstream code reads. -/
structure MatchResult where
  overall_score : ℚ
  skills_match : ℚ
  experience_match : ℚ
  education_match : ℚ
  recommendations : List String
  missing_skills : List String
  matching_skills : List String

/-- Embedding of `MatchingEngine.calculate_match_score`.  `text_score` is the
value `_calculate_text_similarity` returned (its TF-IDF cosine times 100, or
the 50.0 default on numerical failure); `ai_analysis` is the parsed result of
the `analyze_resume_match` model call. -/
def calculate_match_score (resume_data : ResumeData) (job_desc : JobDescription)
    (text_score : ℚ) (ai_analysis : ParsedAnalysis) : MatchResult :=
  let skills_score := calculate_skills_match resume_data.skills
    (job_desc.required_skills ++ job_desc.preferred_skills)
  let experience_score := calculate_experience_match job_desc.experience_level
    resume_data.total_experience_years
  let overall_score := skills_score * (35 / 100) + experience_score * (25 / 100) +
    text_score * (20 / 100) + (ai_analysis.overall_fit : ℚ) * (20 / 100)
  let gap := analyze_skills_gap resume_data.skills job_desc.required_skills
  { overall_score := pyRound2 overall_score
    skills_match := pyRound2 skills_score
    experience_match := pyRound2 experience_score
    education_match := 75
    recommendations := ai_analysis.recommendations
    missing_skills := gap.2
    matching_skills := gap.1 }

/-- Skills-match metric exactly as claim C1 words it: over the posting's
required skills only. -/
def claimed_skills_match (candidate_skills required_skills : List String) : ℚ :=
  if required_skills = [] then 100
  else
    (((required_skills.map pyLower).filter
        (fun s => s ∈ candidate_skills.map pyLower)).length : ℚ) /
      ((required_skills.length : ℚ)) * 100

/-- Experience-match metric exactly as claim C3 words it. -/
def claimed_experience_score (label : String) (years : ℚ) : ℚ :=
  let band :=
    if pyLower label = "entry" then ((0 : ℚ), (2 : ℚ))
    else if pyLower label = "junior" then (1, 3)
    else if pyLower label = "mid" then (3, 6)
    else if pyLower label = "senior" then (6, 10)
    else if pyLower label = "lead" then (8, 15)
    else if pyLower label = "principal" then (10, 20)
    else (0, 100)
  if band.1 ≤ years ∧ years ≤ band.2 then 100
  else if years < band.1 then max 0 (100 - (band.1 - years) * 20)
  else max 70 (100 - (years - band.2) * 5)

/-- the numeric skills-match score always lies in [0, 100]. -/
theorem calculate_skills_match_bounds (rs js : List String) :
    0 ≤ calculate_skills_match rs js ∧ calculate_skills_match rs js ≤ 100 := by
  unfold calculate_skills_match
  by_cases h : js = []
  · simp [h]
  · simp only [h, if_false]
    have hle : ((js.map pyLower).filter (fun s => s ∈ rs.map pyLower)).length ≤
        (js.map pyLower).length := List.length_filter_le _ _
    have hpos : 0 < (js.map pyLower).length := by
      simpa [List.length_map] using List.length_pos.mpr h
    have hposQ : (0 : ℚ) < ((js.map pyLower).length : ℚ) := by exact_mod_cast hpos
    constructor
    · positivity
    · have h1 : (((js.map pyLower).filter (fun s => s ∈ rs.map pyLower)).length : ℚ) /
          ((js.map pyLower).length : ℚ) ≤ 1 := by
        rw [div_le_one hposQ]
        exact_mod_cast hle
      nlinarith

/-- the experience-match score always lies in [0, 100]. -/
theorem calculate_experience_match_bounds (lvl : String) (y : ℚ) :
    0 ≤ calculate_experience_match lvl y ∧ calculate_experience_match lvl y ≤ 100 := by
  unfold calculate_experience_match
  set rr := experience_levels (pyLower lvl) with hrr
  dsimp only
  split_ifs with h1 h2
  · norm_num
  · have hg : 0 ≤ (rr.1 - y) * 20 := mul_nonneg (by linarith) (by norm_num)
    exact ⟨le_max_left 0 _, max_le (by norm_num) (by linarith)⟩
  · have hy1 : rr.1 ≤ y := not_lt.mp h2
    have hy2 : rr.2 < y := by
      rcases not_and_or.mp h1 with h | h
      · exact absurd hy1 h
      · exact not_le.mp h
    have hg : 0 ≤ (y - rr.2) * 5 := mul_nonneg (by linarith) (by norm_num)
    exact ⟨le_trans (by norm_num) (le_max_left 70 _), max_le (by norm_num) (by linarith)⟩

/-- banker's rounding returns the floor or the floor plus one, the latter
only when the argument is strictly above its floor. -/
theorem roundHalfEven_cases (q : ℚ) :
    roundHalfEven q = ⌊q⌋ ∨ (roundHalfEven q = ⌊q⌋ + 1 ∧ ((⌊q⌋ : ℚ) < q)) := by
  unfold roundHalfEven
  dsimp only
  split_ifs with h1 h2 h3
  · exact Or.inl rfl
  · exact Or.inr ⟨rfl, by linarith⟩
  · exact Or.inl rfl
  · exact Or.inr ⟨rfl, by linarith⟩

/-- two-decimal rounding keeps values inside [0, 100]. -/
theorem pyRound2_bounds (q : ℚ) (h0 : 0 ≤ q) (h100 : q ≤ 100) :
    0 ≤ pyRound2 q ∧ pyRound2 q ≤ 100 := by
  unfold pyRound2
  have h0' : (0 : ℚ) ≤ q * 100 := by positivity
  have h1' : q * 100 ≤ 10000 := by linarith
  have hf0 : 0 ≤ ⌊q * 100⌋ := Int.floor_nonneg.mpr h0'
  have hfle : ⌊q * 100⌋ ≤ 10000 := by
    have := Int.floor_le_floor h1'
    simpa using this
  rcases roundHalfEven_cases (q * 100) with h | ⟨h, hlt⟩
  · rw [h]
    constructor
    · positivity
    · rw [div_le_iff₀ (by norm_num : (0 : ℚ) < 100)]
      calc ((⌊q * 100⌋ : ℚ)) ≤ 10000 := by exact_mod_cast hfle
        _ = 100 * 100 := by norm_num
  · rw [h]
    have hlt' : ⌊q * 100⌋ < 10000 := by
      have : ((⌊q * 100⌋ : ℚ)) < 10000 := lt_of_lt_of_le hlt h1'
      exact_mod_cast this
    constructor
    · positivity
    · rw [div_le_iff₀ (by norm_num : (0 : ℚ) < 100)]
      calc ((⌊q * 100⌋ + 1 : ℤ) : ℚ) ≤ 10000 := by exact_mod_cast hlt'
        _ = 100 * 100 := by norm_num

/-- An all-default parsed analysis (every score 0, every list empty), the
value `_parse_analysis` yields for an unlabelled model output. -/
def aiZero : ParsedAnalysis :=
  { skills_match := 0, experience_match := 0, education_match := 0,
    overall_fit := 0, strengths := [], gaps := [], recommendations := [] }

/-- Candidate for the C1 counterexample: knows exactly "python". -/
def rdC1 : ResumeData := { skills := ["python"], summary := "", total_experience_years := 5 }

/-- Posting for the C1 counterexample: requires "python", prefers "docker". -/
def jdC1 : JobDescription :=
  { title := "Dev", company := "Acme", description := "", required_skills := ["python"],
    preferred_skills := ["docker"], experience_level := "mid", location := "Remote" }

/-- Counterexample to C1: a candidate holding every required skill but not
the preferred one.  Per the claim the score should be 100 (full required
overlap), but the code pools preferred skills into the denominator and
reports 50. -/
theorem skills_match_required_only_counterexample :
    claimed_skills_match rdC1.skills jdC1.required_skills = 100 ∧
    (calculate_match_score rdC1 jdC1 50 aiZero).skills_match = 50 ∧
    (calculate_match_score rdC1 jdC1 50 aiZero).skills_match ≠
      claimed_skills_match rdC1.skills jdC1.required_skills := by
  have hclaim : claimed_skills_match rdC1.skills jdC1.required_skills = 100 := by
    unfold claimed_skills_match
    rw [if_neg (by decide : ¬ jdC1.required_skills = [])]
    have h1 : ((jdC1.required_skills.map pyLower).filter
        (fun s => s ∈ rdC1.skills.map pyLower)).length = 1 := by rfl
    have h2 : jdC1.required_skills.length = 1 := by rfl
    rw [h1, h2]
    norm_num
  have hs : calculate_skills_match rdC1.skills
      (jdC1.required_skills ++ jdC1.preferred_skills) = 50 := by
    unfold calculate_skills_match
    rw [if_neg (by decide : ¬ jdC1.required_skills ++ jdC1.preferred_skills = [])]
    have h1 : (((jdC1.required_skills ++ jdC1.preferred_skills).map pyLower).filter
        (fun s => s ∈ rdC1.skills.map pyLower)).length = 1 := by rfl
    have h2 : ((jdC1.required_skills ++ jdC1.preferred_skills).map pyLower).length = 2 := by
      rfl
    dsimp only
    rw [h1, h2]
    norm_num
  have hcode : (calculate_match_score rdC1 jdC1 50 aiZero).skills_match = 50 := by
    show pyRound2 (calculate_skills_match rdC1.skills
      (jdC1.required_skills ++ jdC1.preferred_skills)) = 50
    rw [hs]
    unfold pyRound2 roundHalfEven
    dsimp only
    rw [show ⌊(50 : ℚ) * 100⌋ = 5000 by norm_num]
    norm_num
  refine ⟨hclaim, hcode, ?_⟩
  rw [hclaim, hcode]
  norm_num

/-- C1 as amended: the numeric skills_match is computed over the
concatenation of required and preferred skills — 100 when that combined pool
is empty, otherwise the case-insensitive overlap count over the pool size
times 100 — and the reported field is that value rounded to two decimals. -/
theorem skills_match_uses_combined_pool (rd : ResumeData) (jd : JobDescription)
    (t : ℚ) (ai : ParsedAnalysis) :
    calculate_skills_match rd.skills (jd.required_skills ++ jd.preferred_skills) =
      claimed_skills_match rd.skills (jd.required_skills ++ jd.preferred_skills) ∧
    (calculate_match_score rd jd t ai).skills_match =
      pyRound2 (claimed_skills_match rd.skills
        (jd.required_skills ++ jd.preferred_skills)) := by
  have hmain : calculate_skills_match rd.skills
      (jd.required_skills ++ jd.preferred_skills) =
      claimed_skills_match rd.skills (jd.required_skills ++ jd.preferred_skills) := by
    unfold calculate_skills_match claimed_skills_match
    by_cases h : jd.required_skills ++ jd.preferred_skills = []
    · simp [h]
    · simp only [h, if_false, List.length_map]
  refine ⟨hmain, ?_⟩
  show pyRound2 (calculate_skills_match rd.skills
      (jd.required_skills ++ jd.preferred_skills)) = _
  rw [hmain]

/-- C2: the overall score is the fixed weighted sum of the four sub-scores
(skills 0.35, experience 0.25, text similarity 0.20, AI fit 0.20) rounded to
two decimals, and it lies in [0, 100] for every text-similarity value in
[0, 100] (the defaulted 50 included) and every parsed AI analysis (whose
overall_fit is clamped, with 0 as the degraded default). -/
theorem overall_score_formula_and_bounds (rd : ResumeData) (jd : JobDescription)
    (text_score : ℚ) (analysis : String)
    (ht0 : 0 ≤ text_score) (ht1 : text_score ≤ 100) :
    (calculate_match_score rd jd text_score (parse_analysis analysis)).overall_score =
      pyRound2 (calculate_skills_match rd.skills
          (jd.required_skills ++ jd.preferred_skills) * (35 / 100) +
        calculate_experience_match jd.experience_level rd.total_experience_years *
          (25 / 100) +
        text_score * (20 / 100) +
        ((parse_analysis analysis).overall_fit : ℚ) * (20 / 100)) ∧
    0 ≤ (calculate_match_score rd jd text_score (parse_analysis analysis)).overall_score ∧
    (calculate_match_score rd jd text_score (parse_analysis analysis)).overall_score ≤
      100 := by
  obtain ⟨hs0, hs1⟩ := calculate_skills_match_bounds rd.skills
    (jd.required_skills ++ jd.preferred_skills)
  obtain ⟨he0, he1⟩ := calculate_experience_match_bounds jd.experience_level
    rd.total_experience_years
  obtain ⟨ha0, ha1⟩ := parseScore_bounds "OVERALL_FIT:" analysis
  have ha0' : (0 : ℚ) ≤ ((parse_analysis analysis).overall_fit : ℚ) := by
    exact_mod_cast ha0
  have ha1' : ((parse_analysis analysis).overall_fit : ℚ) ≤ 100 := by
    exact_mod_cast ha1
  have hraw0 : 0 ≤ calculate_skills_match rd.skills
      (jd.required_skills ++ jd.preferred_skills) * (35 / 100) +
      calculate_experience_match jd.experience_level rd.total_experience_years *
        (25 / 100) +
      text_score * (20 / 100) +
      ((parse_analysis analysis).overall_fit : ℚ) * (20 / 100) := by positivity
  have hraw1 : calculate_skills_match rd.skills
      (jd.required_skills ++ jd.preferred_skills) * (35 / 100) +
      calculate_experience_match jd.experience_level rd.total_experience_years *
        (25 / 100) +
      text_score * (20 / 100) +
      ((parse_analysis analysis).overall_fit : ℚ) * (20 / 100) ≤ 100 := by
    nlinarith
  obtain ⟨hb0, hb1⟩ := pyRound2_bounds _ hraw0 hraw1
  exact ⟨rfl, hb0, hb1⟩

/-- Witness for C2: a concrete candidate and posting with both external
sub-scores at their degraded defaults (text similarity 50, AI fit 0 from an
unlabelled analysis): the overall score still lies in [0, 100]. -/
theorem overall_score_formula_and_bounds_witness :
    0 ≤ (calculate_match_score rdC1 jdC1 50 (parse_analysis "model down")).overall_score ∧
    (calculate_match_score rdC1 jdC1 50 (parse_analysis "model down")).overall_score ≤
      100 :=
  ⟨(overall_score_formula_and_bounds rdC1 jdC1 50 "model down" (by norm_num)
      (by norm_num)).2.1,
   (overall_score_formula_and_bounds rdC1 jdC1 50 "model down" (by norm_num)
      (by norm_num)).2.2⟩

/-- C3: the experience-match score follows the closed band table — entry
(0,2), junior (1,3), mid (3,6), senior (6,10), lead (8,15), principal
(10,20), unknown labels (0,100) — scoring 100 inside the band,
max(0, 100 - gap*20) below it and max(70, 100 - excess*5) above it; in
particular for "mid": 4 years scores 100, 1 year scores 60, 9 years 85. -/
theorem experience_match_band_table :
    (∀ (label : String) (years : ℚ),
      calculate_experience_match label years = claimed_experience_score label years) ∧
    calculate_experience_match "mid" 4 = 100 ∧
    calculate_experience_match "mid" 1 = 60 ∧
    calculate_experience_match "mid" 9 = 85 := by
  have htable : ∀ (label : String) (years : ℚ),
      calculate_experience_match label years = claimed_experience_score label years := by
    intro label years
    rfl
  have hmid : experience_levels (pyLower "mid") = (3, 6) := by
    rfl
  refine ⟨htable, ?_, ?_, ?_⟩
  · unfold calculate_experience_match
    rw [hmid]
    norm_num
  · unfold calculate_experience_match
    rw [hmid]
    norm_num
  · unfold calculate_experience_match
    rw [hmid]
    norm_num

/-- C4: the matching and missing skill lists are disjoint, each is
characterised by case-insensitive presence or absence in the candidate's
skills, their union is exactly the lowercased required-skill set, and each
preserves the posting's declared skill order (both are sublists of the
lowercased required list). -/
theorem skills_gap_partition (rs req : List String) :
    (∀ x, ¬(x ∈ (analyze_skills_gap rs req).1 ∧ x ∈ (analyze_skills_gap rs req).2)) ∧
    (∀ x, x ∈ (analyze_skills_gap rs req).1 ↔
      (x ∈ req.map pyLower ∧ x ∈ rs.map pyLower)) ∧
    (∀ x, x ∈ (analyze_skills_gap rs req).2 ↔
      (x ∈ req.map pyLower ∧ x ∉ rs.map pyLower)) ∧
    (∀ x, (x ∈ (analyze_skills_gap rs req).1 ∨ x ∈ (analyze_skills_gap rs req).2) ↔
      x ∈ req.map pyLower) ∧
    (analyze_skills_gap rs req).1.Sublist (req.map pyLower) ∧
    (analyze_skills_gap rs req).2.Sublist (req.map pyLower) := by
  unfold analyze_skills_gap
  refine ⟨?_, ?_, ?_, ?_, List.filter_sublist _, List.filter_sublist _⟩
  · intro x
    simp only [List.mem_filter, decide_eq_true_eq]
    tauto
  · intro x
    simp [List.mem_filter]
  · intro x
    simp [List.mem_filter]
  · intro x
    constructor
    · rintro (hx | hx) <;> exact (List.mem_filter.mp hx).1
    · intro hx
      by_cases hmem : x ∈ rs.map pyLower
      · exact Or.inl (List.mem_filter.mpr ⟨hx, by simpa using hmem⟩)
      · exact Or.inr (List.mem_filter.mpr ⟨hx, by simpa using hmem⟩)

/-- Witness for C4 on a concrete posting and candidate: "python" is required
and present, so it lands in the matching list; "docker" is required and
absent, so it lands in the missing list; and "python" is not missing. -/
theorem skills_gap_partition_witness :
    "python" ∈ (analyze_skills_gap ["Python", "Git"] ["Python", "Docker"]).1 ∧
    "docker" ∈ (analyze_skills_gap ["Python", "Git"] ["Python", "Docker"]).2 ∧
    ¬("python" ∈ (analyze_skills_gap ["Python", "Git"] ["Python", "Docker"]).1 ∧
      "python" ∈ (analyze_skills_gap ["Python", "Git"] ["Python", "Docker"]).2) :=
  ⟨((skills_gap_partition ["Python", "Git"] ["Python", "Docker"]).2.1 "python").mpr
      ⟨by decide, by decide⟩,
   ((skills_gap_partition ["Python", "Git"] ["Python", "Docker"]).2.2.1 "docker").mpr
      ⟨by decide, by decide⟩,
   (skills_gap_partition ["Python", "Git"] ["Python", "Docker"]).1 "python"⟩

/-- Resume and posting used to exhibit the lowercasing of reported skills. -/
def rdC10 : ResumeData := { skills := [], summary := "", total_experience_years := 0 }

/-- Posting whose single required skill is declared with an uppercase P. -/
def jdC10 : JobDescription :=
  { title := "", company := "", description := "", required_skills := ["Python"],
    preferred_skills := [], experience_level := "", location := "" }

/-- C10: every reported matching or missing skill is the lowercased form of
one of the posting's declared required skills; concretely, a posting
declaring "Python" yields the missing list ["python"], not ["Python"]. -/
theorem gap_lists_are_lowercased (rd : ResumeData) (jd : JobDescription)
    (t : ℚ) (ai : ParsedAnalysis) :
    (∀ x ∈ (calculate_match_score rd jd t ai).matching_skills,
      ∃ s ∈ jd.required_skills, x = pyLower s) ∧
    (∀ x ∈ (calculate_match_score rd jd t ai).missing_skills,
      ∃ s ∈ jd.required_skills, x = pyLower s) ∧
    (calculate_match_score rdC10 jdC10 50 aiZero).missing_skills = ["python"] ∧
    (calculate_match_score rdC10 jdC10 50 aiZero).missing_skills ≠
      jdC10.required_skills := by
  refine ⟨?_, ?_, by rfl, by decide⟩
  · intro x hx
    have hx' : x ∈ jd.required_skills.map pyLower :=
      (List.mem_filter.mp hx).1
    obtain ⟨s, hs, hsx⟩ := List.mem_map.mp hx'
    exact ⟨s, hs, hsx.symm⟩
  · intro x hx
    have hx' : x ∈ jd.required_skills.map pyLower :=
      (List.mem_filter.mp hx).1
    obtain ⟨s, hs, hsx⟩ := List.mem_map.mp hx'
    exact ⟨s, hs, hsx.symm⟩

/-- Witness for C10: the sole missing skill "python" reported for the posting
declaring "Python" is the lowercasing of a declared required skill. -/
theorem gap_lists_are_lowercased_witness :
    ∃ s ∈ jdC10.required_skills, "python" = pyLower s :=
  (gap_lists_are_lowercased rdC10 jdC10 50 aiZero).2.1 "python" (by decide)

/-! ## Batch orchestrator (`run_ai_matching`, tasks.py lines 148-218)

For each application the code looks up the consultant profile and the
latest resume (most recent upload), skips silently when either is missing or
the resume bytes are empty, writes the bytes to a fresh temporary file, runs
extraction → parsing → scoring → report inside try/except (appending one
RankedApplicantMatch row and one candidates entry on success, nothing on
failure) and removes the temporary file in a finally block.  The lookups and
the per-candidate pipeline are oracles carried by `Applicant`; the database
and the temp directory are the explicit `OrchestratorState` (temporary file
names are modelled as consecutive naturals, `nextTmp` being the fresh name
`NamedTemporaryFile` would produce). -/

/-- fields of ConsultantProfile read by the orchestrator. -/
structure Consultant where
  name : String
  primary_email : String

/-- fields of the pipeline result (`match_resume_to_job` + `generate_report`)
consumed by the orchestrator. -/
structure MatchOutput where
  overall_score : ℚ
  matching_skills : List String
  missing_skills : List String
  report : String

/-- one JobApplication together with the oracle answers of the per-candidate
queries and pipeline: `consultant` is the profile lookup, `resume` the
`file_data` of the latest resume row if one exists, `pipeline` the outcome of
extraction → parsing → scoring → report for this candidate. -/
structure Applicant where
  consultant_id : ℕ
  consultant : Option Consultant
  resume : Option (List ℕ)
  pipeline : Except String MatchOutput

/-- a persisted RankedApplicantMatch row. -/
structure RankedRow where
  job_id : ℕ
  consultant_id : ℕ
  match_score : ℚ
  top_skills_matched : List String
  missing_skills : List String
  report : String

/-- one entry of the in-memory `candidates` result list. -/
structure Candidate where
  consultant_id : ℕ
  name : String
  email : String
  match_score : ℚ
  skills_matched : String
  report : String

/-- the database rows plus the temporary directory contents. -/
structure OrchestratorState where
  ranked : List RankedRow
  tempFiles : List ℕ
  nextTmp : ℕ

/-- One loop iteration of `run_ai_matching`: skip when the consultant or a
nonempty latest resume is missing, otherwise create the temp file, run the
pipeline (row + candidate entry on success, nothing on the except path) and
remove the temp file in the finally block. -/
def process_applicant (job_id : ℕ) (a : Applicant) (st : OrchestratorState) :
    OrchestratorState × Option Candidate :=
  match a.consultant, a.resume with
  | some c, some (_ :: _) =>
      let tmp := st.nextTmp
      let st1 : OrchestratorState :=
        { st with tempFiles := st.tempFiles ++ [tmp], nextTmp := st.nextTmp + 1 }
      match a.pipeline with
      | Except.ok out =>
          let st2 : OrchestratorState :=
            { st1 with
              ranked := st1.ranked ++
                [{ job_id := job_id, consultant_id := a.consultant_id,
                   match_score := out.overall_score,
                   top_skills_matched := out.matching_skills,
                   missing_skills := out.missing_skills, report := out.report }],
              tempFiles := st1.tempFiles.filter (fun t => t ≠ tmp) }
          (st2, some {
            consultant_id := a.consultant_id, name := c.name,
            email := c.primary_email, match_score := out.overall_score,
            skills_matched := String.intercalate ", " (out.matching_skills.take 3),
            report := out.report })
      | Except.error _ =>
          ({ st1 with tempFiles := st1.tempFiles.filter (fun t => t ≠ tmp) }, none)
  | _, _ => (st, none)

/-- The `for application in applications` loop. -/
def matchLoop (job_id : ℕ) : List Applicant → OrchestratorState → List Candidate →
    OrchestratorState × List Candidate
  | [], st, acc => (st, acc)
  | a :: rest, st, acc =>
      let step := process_applicant job_id a st
      matchLoop job_id rest step.1 (acc ++ step.2.toList)

/-- Embedding of `candidates.sort(key=lambda x: x['match_score'], reverse=True)`. -/
def sortByScoreDesc (cs : List Candidate) : List Candidate :=
  cs.mergeSort (fun a b => b.match_score ≤ a.match_score)

/-- Embedding of `run_ai_matching`: clear this posting's old ranked matches,
loop over the applications, commit, and return the sorted candidate list. -/
def run_ai_matching (job_id : ℕ) (applications : List Applicant)
    (st : OrchestratorState) : OrchestratorState × List Candidate :=
  let st0 : OrchestratorState :=
    { st with ranked := st.ranked.filter (fun r => r.job_id ≠ job_id) }
  let res := matchLoop job_id applications st0 []
  (res.1, sortByScoreDesc res.2)

/-- A sequence of non-concurrent batch runs. -/
def run_sequence : List (ℕ × List Applicant) → OrchestratorState → OrchestratorState
  | [], st => st
  | (j, apps) :: rest, st => run_sequence rest (run_ai_matching j apps st).1

/-- the row `process_applicant` persists for an applicant, when any. -/
def rowOf (job_id : ℕ) (a : Applicant) : Option RankedRow :=
  match a.consultant, a.resume, a.pipeline with
  | some _, some (_ :: _), Except.ok out =>
      some {
        job_id := job_id, consultant_id := a.consultant_id,
        match_score := out.overall_score,
        top_skills_matched := out.matching_skills,
        missing_skills := out.missing_skills, report := out.report }
  | _, _, _ => none

/-- the candidates entry `process_applicant` appends for an applicant. -/
def candOf (a : Applicant) : Option Candidate :=
  match a.consultant, a.resume, a.pipeline with
  | some c, some (_ :: _), Except.ok out =>
      some {
        consultant_id := a.consultant_id, name := c.name,
        email := c.primary_email, match_score := out.overall_score,
        skills_matched := String.intercalate ", " (out.matching_skills.take 3),
        report := out.report }
  | _, _, _ => none

/-- an applicant that is not skipped (consultant found, nonempty resume). -/
def attempted (a : Applicant) : Bool :=
  match a.consultant, a.resume with
  | some _, some (_ :: _) => true
  | _, _ => false

/-- an applicant that completes the pipeline and enters the ranking. -/
def scoreable (a : Applicant) : Bool :=
  match a.consultant, a.resume, a.pipeline with
  | some _, some (_ :: _), Except.ok _ => true
  | _, _, _ => false

/-- temp-file names handed out so far are all below the next fresh name. -/
def Fresh (st : OrchestratorState) : Prop :=
  ∀ t ∈ st.tempFiles, t < st.nextTmp

/-- at most one ranked row per (posting, candidate) pair. -/
def GoodDb (rows : List RankedRow) : Prop :=
  ∀ j c, ((rows.filter (fun r => r.job_id = j ∧ r.consultant_id = c)).length ≤ 1)

/-- One iteration appends exactly the row and candidate entry of the
applicant (none on skip or failure) and leaves the temp directory unchanged,
provided temp names so far are fresh. -/
theorem process_applicant_spec (job : ℕ) (a : Applicant) (st : OrchestratorState)
    (hf : Fresh st) :
    process_applicant job a st =
      ({
        ranked := st.ranked ++ (rowOf job a).toList,
        tempFiles := st.tempFiles,
        nextTmp := st.nextTmp + (if attempted a then 1 else 0) }, candOf a) := by
  rcases st with ⟨ranked, tempFiles, nextTmp⟩
  have hne : ∀ t ∈ tempFiles, ¬ t = nextTmp := fun t ht => Nat.ne_of_lt (hf t ht)
  have htf : (tempFiles ++ [nextTmp]).filter (fun t => t ≠ nextTmp) = tempFiles := by
    rw [List.filter_append]
    have h1 : tempFiles.filter (fun t => t ≠ nextTmp) = tempFiles := by
      apply List.filter_eq_self.mpr
      intro t ht
      simpa using hne t ht
    simp [h1]
    exact hne
  rcases a with ⟨cid, copt, ropt, pip⟩
  cases copt with
  | none => simp [process_applicant, rowOf, candOf, attempted]
  | some c =>
      cases ropt with
      | none => simp [process_applicant, rowOf, candOf, attempted]
      | some bytes =>
          cases bytes with
          | nil => simp [process_applicant, rowOf, candOf, attempted]
          | cons b bs =>
              cases pip with
              | ok out =>
                  simp [process_applicant, rowOf, candOf, attempted, htf, hne]
                  exact hne
              | error e =>
                  simp [process_applicant, rowOf, candOf, attempted, htf, hne]
                  exact hne

/-- The loop accumulates exactly the rows and candidate entries of the
processed applicants and restores the temp directory. -/
theorem matchLoop_spec (job : ℕ) :
    ∀ (apps : List Applicant) (st : OrchestratorState) (acc : List Candidate),
      Fresh st →
      matchLoop job apps st acc =
        ({
          ranked := st.ranked ++ apps.filterMap (rowOf job),
          tempFiles := st.tempFiles,
          nextTmp := st.nextTmp + apps.countP attempted },
         acc ++ apps.filterMap candOf) := by
  intro apps
  induction apps with
  | nil =>
      intro st acc hf
      cases st
      simp [matchLoop]
  | cons a rest ih =>
      intro st acc hf
      have hstep := process_applicant_spec job a st hf
      have hf1 : Fresh ({
          ranked := st.ranked ++ (rowOf job a).toList,
          tempFiles := st.tempFiles,
          nextTmp := st.nextTmp + (if attempted a then 1 else 0) } :
            OrchestratorState) := by
        intro t ht
        exact lt_of_lt_of_le (hf t ht) (Nat.le_add_right _ _)
      have hrec := ih _ (acc ++ (candOf a).toList) hf1
      simp only [matchLoop]
      rw [hstep]
      dsimp only
      rw [hrec]
      have harith : st.nextTmp + (if attempted a then 1 else 0) +
          rest.countP attempted = st.nextTmp + (a :: rest).countP attempted := by
        rw [List.countP_cons]
        cases attempted a
        · simp
        · simp
          omega
      refine congrArg₂ Prod.mk ?_ ?_
      · cases hrow : rowOf job a <;>
          simp [hrow, List.filterMap_cons, harith, List.append_assoc]
      · cases hcand : candOf a <;>
          simp [hcand, List.filterMap_cons, List.append_assoc]

/-- Full characterisation of one batch run: old rows of this posting are
deleted, exactly the successful applicants' rows are inserted, the temp
directory is restored, and the returned ranking is the sorted list of the
successful applicants' entries. -/
theorem run_ai_matching_spec (job : ℕ) (apps : List Applicant)
    (st : OrchestratorState) (hf : Fresh st) :
    run_ai_matching job apps st =
      ({
        ranked := st.ranked.filter (fun r => r.job_id ≠ job) ++
          apps.filterMap (rowOf job),
        tempFiles := st.tempFiles,
        nextTmp := st.nextTmp + apps.countP attempted },
       sortByScoreDesc (apps.filterMap candOf)) := by
  unfold run_ai_matching
  dsimp only
  have hf0 : Fresh ({
      ranked := st.ranked.filter (fun r => r.job_id ≠ job),
      tempFiles := st.tempFiles,
      nextTmp := st.nextTmp } : OrchestratorState) := hf
  rw [matchLoop_spec job apps _ [] hf0]
  simp

/-- a batch run keeps temp names fresh (they are unchanged and the counter
only grows). -/
theorem run_preserves_fresh (job : ℕ) (apps : List Applicant)
    (st : OrchestratorState) (hf : Fresh st) :
    Fresh (run_ai_matching job apps st).1 := by
  rw [run_ai_matching_spec job apps st hf]
  intro t ht
  exact lt_of_lt_of_le (hf t ht) (Nat.le_add_right _ _)

/-- an applicant whose pipeline raises contributes neither a row nor a
ranking entry. -/
theorem rowOf_candOf_none_of_error (job : ℕ) (a : Applicant) (e : String)
    (h : a.pipeline = Except.error e) : rowOf job a = none ∧ candOf a = none := by
  rcases a with ⟨cid, copt, ropt, pip⟩
  cases pip with
  | ok out => simp at h
  | error e' =>
      cases copt with
      | none => simp [rowOf, candOf]
      | some c =>
          cases ropt with
          | none => simp [rowOf, candOf]
          | some bytes => cases bytes <;> simp [rowOf, candOf]

/-- C5: a batch run is total over any applicant list; an applicant whose
pipeline raises contributes no ranked row and no ranking entry (the loop
continues); the persisted rows are exactly the surviving ones, the returned
ranking is a permutation of the successful entries, and the temporary files
present before the run are exactly those present after it (each candidate's
temp file is removed on the success and the failure path alike). -/
theorem per_candidate_fault_isolation (job : ℕ) (apps : List Applicant)
    (st : OrchestratorState) (hf : Fresh st) :
    (run_ai_matching job apps st).1.tempFiles = st.tempFiles ∧
    (run_ai_matching job apps st).1.ranked =
      st.ranked.filter (fun r => r.job_id ≠ job) ++ apps.filterMap (rowOf job) ∧
    (run_ai_matching job apps st).2.Perm (apps.filterMap candOf) ∧
    (∀ a e, a.pipeline = Except.error e → rowOf job a = none ∧ candOf a = none) := by
  rw [run_ai_matching_spec job apps st hf]
  refine ⟨rfl, rfl, ?_, ?_⟩
  · exact List.mergeSort_perm _ _
  · intro a e h
    exact rowOf_candOf_none_of_error job a e h

/-- An empty orchestrator state: no rows, no temp files. -/
def stEmpty : OrchestratorState := { ranked := [], tempFiles := [], nextTmp := 0 }

/-- An applicant with a consultant and a nonempty latest resume whose
pipeline raises (e.g. no extractable text in the PDF). -/
def aFail : Applicant :=
  { consultant_id := 7,
    consultant := some { name := "Ada", primary_email := "ada@example.com" },
    resume := some [1],
    pipeline := Except.error "extraction failed" }

/-- Witness for C5: on a singleton batch whose only candidate fails, the run
completes, leaves no temp file behind, and the failed candidate has neither a
row nor an entry. -/
theorem per_candidate_fault_isolation_witness :
    (run_ai_matching 1 [aFail] stEmpty).1.tempFiles = stEmpty.tempFiles ∧
    (rowOf 1 aFail = none ∧ candOf aFail = none) :=
  ⟨(per_candidate_fault_isolation 1 [aFail] stEmpty
      (by intro t ht; simp [stEmpty] at ht)).1,
   (per_candidate_fault_isolation 1 [aFail] stEmpty
      (by intro t ht; simp [stEmpty] at ht)).2.2.2 aFail "extraction failed" rfl⟩

/-- a persisted row carries the run's posting id and its applicant's
consultant id. -/
theorem rowOf_fields (job : ℕ) (a : Applicant) (r : RankedRow)
    (h : rowOf job a = some r) :
    r.job_id = job ∧ r.consultant_id = a.consultant_id := by
  rcases a with ⟨cid, copt, ropt, pip⟩
  cases copt with
  | none => simp [rowOf] at h
  | some c =>
      cases ropt with
      | none => simp [rowOf] at h
      | some bytes =>
          cases bytes with
          | nil => simp [rowOf] at h
          | cons b bs =>
              cases pip with
              | error e => simp [rowOf] at h
              | ok out =>
                  simp [rowOf] at h
                  subst h
                  exact ⟨rfl, rfl⟩

/-- the fresh rows of a run hold at most as many rows for consultant `c` as
there are applications by `c`. -/
theorem filter_new_rows_le (job c : ℕ) :
    ∀ apps : List Applicant,
      ((apps.filterMap (rowOf job)).filter
          (fun r => r.job_id = job ∧ r.consultant_id = c)).length ≤
        (apps.filter (fun a => a.consultant_id = c)).length := by
  intro apps
  induction apps with
  | nil => simp
  | cons a rest ih =>
      cases hrow : rowOf job a with
      | none =>
          simp only [List.filterMap_cons, hrow]
          by_cases hac : a.consultant_id = c
          · rw [List.filter_cons, if_pos (by simp [hac])]
            simp only [List.length_cons]
            exact le_trans ih (Nat.le_succ _)
          · rw [List.filter_cons, if_neg (by simp [hac])]
            exact ih
      | some r =>
          obtain ⟨hrj, hrc⟩ := rowOf_fields job a r hrow
          simp only [List.filterMap_cons, hrow]
          by_cases hac : a.consultant_id = c
          · rw [List.filter_cons, if_pos (by simp [hrj, hrc, hac]),
              List.filter_cons, if_pos (by simp [hac])]
            simp only [List.length_cons]
            exact Nat.succ_le_succ ih
          · rw [List.filter_cons, if_neg (by simp [hrc, hac]),
              List.filter_cons, if_neg (by simp [hac])]
            exact ih

/-- distinct applicant consultant ids mean at most one application per
consultant. -/
theorem nodup_filter_le_one (c : ℕ) :
    ∀ apps : List Applicant, (apps.map (fun a => a.consultant_id)).Nodup →
      (apps.filter (fun a => a.consultant_id = c)).length ≤ 1 := by
  intro apps
  induction apps with
  | nil => simp
  | cons a rest ih =>
      intro hnd
      rw [List.map_cons, List.nodup_cons] at hnd
      obtain ⟨hnotin, hnd'⟩ := hnd
      by_cases hac : a.consultant_id = c
      · have hrest : rest.filter (fun a => a.consultant_id = c) = [] := by
          rw [List.filter_eq_nil_iff]
          intro b hb
          simp only [decide_eq_true_eq]
          intro hbc
          exact hnotin (List.mem_map.mpr ⟨b, hb, by rw [hbc, hac]⟩)
        rw [List.filter_cons, if_pos (by simp [hac]), hrest]
        simp
      · rw [List.filter_cons, if_neg (by simp [hac])]
        exact ih hnd'

/-- every fresh row of a run is tagged with that run's posting id. -/
theorem new_rows_job_id (job : ℕ) (apps : List Applicant) (r : RankedRow)
    (h : r ∈ apps.filterMap (rowOf job)) : r.job_id = job := by
  obtain ⟨a, _, hrow⟩ := List.mem_filterMap.mp h
  exact (rowOf_fields job a r hrow).1

/-- after one run, this posting has at most one row per candidate (given the
API-enforced one-application-per-consultant). -/
theorem run_rows_bound (job : ℕ) (apps : List Applicant) (st : OrchestratorState)
    (hf : Fresh st) (hnd : (apps.map (fun a => a.consultant_id)).Nodup) (c : ℕ) :
    (((run_ai_matching job apps st).1.ranked.filter
        (fun r => r.job_id = job ∧ r.consultant_id = c)).length ≤ 1) := by
  rw [run_ai_matching_spec job apps st hf]
  dsimp only
  rw [List.filter_append, List.length_append]
  have hold : ((st.ranked.filter (fun r => r.job_id ≠ job)).filter
      (fun r => r.job_id = job ∧ r.consultant_id = c)) = [] := by
    rw [List.filter_eq_nil_iff]
    intro r hr
    have hne : r.job_id ≠ job := by
      have hmem := List.mem_filter.mp hr
      simpa using hmem.2
    simp only [decide_eq_true_eq]
    intro hh
    exact hne hh.1
  rw [hold]
  simp only [List.length_nil, Nat.zero_add]
  exact le_trans (filter_new_rows_le job c apps) (nodup_filter_le_one c apps hnd)

/-- a run touches no rows of other postings, so the global one-row-per-pair
invariant is preserved. -/
theorem run_good_db (job : ℕ) (apps : List Applicant) (st : OrchestratorState)
    (hf : Fresh st) (hnd : (apps.map (fun a => a.consultant_id)).Nodup)
    (hgood : GoodDb st.ranked) :
    GoodDb (run_ai_matching job apps st).1.ranked := by
  intro j c
  by_cases hj : j = job
  · rw [hj]
    exact run_rows_bound job apps st hf hnd c
  · rw [run_ai_matching_spec job apps st hf]
    dsimp only
    rw [List.filter_append, List.length_append]
    have hnew : ((apps.filterMap (rowOf job)).filter
        (fun r => r.job_id = j ∧ r.consultant_id = c)) = [] := by
      rw [List.filter_eq_nil_iff]
      intro r hr
      have hrj := new_rows_job_id job apps r hr
      simp only [decide_eq_true_eq]
      intro hh
      exact hj (by rw [← hh.1, hrj])
    rw [hnew]
    simp only [List.length_nil, Nat.add_zero]
    have hsub : List.Sublist
        ((st.ranked.filter (fun r => r.job_id ≠ job)).filter
          (fun r => r.job_id = j ∧ r.consultant_id = c))
        (st.ranked.filter (fun r => r.job_id = j ∧ r.consultant_id = c)) :=
      List.Sublist.filter _ (List.filter_sublist _)
    exact le_trans hsub.length_le (hgood j c)

/-- the one-row-per-pair invariant is preserved along any sequence of runs. -/
theorem run_sequence_good (runs : List (ℕ × List Applicant)) :
    ∀ st : OrchestratorState, Fresh st →
      (∀ p ∈ runs, ((p.2).map (fun a => a.consultant_id)).Nodup) →
      GoodDb st.ranked → GoodDb (run_sequence runs st).ranked := by
  induction runs with
  | nil =>
      intro st _ _ hgood
      exact hgood
  | cons p rest ih =>
      intro st hf hruns hgood
      rcases p with ⟨j, japps⟩
      have hnd : (japps.map (fun a => a.consultant_id)).Nodup :=
        hruns (j, japps) (List.mem_cons_self _ _)
      have hruns' : ∀ q ∈ rest, ((q.2).map (fun a => a.consultant_id)).Nodup :=
        fun q hq => hruns q (List.mem_cons_of_mem _ hq)
      exact ih (run_ai_matching j japps st).1
        (run_preserves_fresh j japps st hf) hruns'
        (run_good_db j japps st hf hnd hgood)

/-- C8: a batch run first deletes every ranked row of the posting and then
inserts at most one fresh row per applicant, so with applications unique per
consultant (the /apply endpoint rejects duplicates) the run leaves at most
one row per (posting, candidate) pair, and the invariant holds after every
sequence of non-concurrent runs starting from a state satisfying it. -/
theorem ranked_match_unique (job : ℕ) (apps : List Applicant)
    (st : OrchestratorState) (runs : List (ℕ × List Applicant)) (hf : Fresh st)
    (hnd : (apps.map (fun a => a.consultant_id)).Nodup)
    (hruns : ∀ p ∈ runs, ((p.2).map (fun a => a.consultant_id)).Nodup) :
    (∀ c, (((run_ai_matching job apps st).1.ranked.filter
        (fun r => r.job_id = job ∧ r.consultant_id = c)).length ≤ 1)) ∧
    ((apps.filterMap (rowOf job)).length ≤ apps.length) ∧
    (GoodDb st.ranked → GoodDb (run_ai_matching job apps st).1.ranked) ∧
    (GoodDb st.ranked → GoodDb (run_sequence runs st).ranked) := by
  refine ⟨fun c => run_rows_bound job apps st hf hnd c,
    List.length_filterMap_le _ _,
    fun hgood => run_good_db job apps st hf hnd hgood,
    fun hgood => run_sequence_good runs st hf hruns hgood⟩

/-- pipeline output for a successfully scored applicant. -/
def mOut : MatchOutput :=
  { overall_score := 80, matching_skills := ["python"], missing_skills := [],
    report := "report" }

/-- an applicant whose pipeline succeeds. -/
def aOk : Applicant :=
  { consultant_id := 5,
    consultant := some { name := "Bo", primary_email := "bo@example.com" },
    resume := some [2],
    pipeline := Except.ok mOut }

/-- Witness for C8: running one successful applicant against an empty
database leaves at most one row for the pair and preserves the invariant
along the empty sequence of further runs. -/
theorem ranked_match_unique_witness :
    (((run_ai_matching 1 [aOk] stEmpty).1.ranked.filter
        (fun r => r.job_id = 1 ∧ r.consultant_id = 5)).length ≤ 1) ∧
    GoodDb (run_sequence [] stEmpty).ranked :=
  ⟨(ranked_match_unique 1 [aOk] stEmpty []
      (by intro t ht; simp [stEmpty] at ht)
      (by simp)
      (by simp)).1 5,
   (ranked_match_unique 1 [aOk] stEmpty []
      (by intro t ht; simp [stEmpty] at ht)
      (by simp)
      (by simp)).2.2.2
      (by intro j c; simp [stEmpty])⟩

/-- an applicant yields a ranking entry exactly when it completes the
pipeline. -/
theorem candOf_isSome (a : Applicant) : (candOf a).isSome = scoreable a := by
  rcases a with ⟨cid, copt, ropt, pip⟩
  cases copt with
  | none => simp [candOf, scoreable]
  | some c =>
      cases ropt with
      | none => simp [candOf, scoreable]
      | some bytes =>
          cases bytes with
          | nil => simp [candOf, scoreable]
          | cons b bs => cases pip <;> simp [candOf, scoreable]

/-- the accumulated entries count the scoreable applicants. -/
theorem length_filterMap_candOf :
    ∀ apps : List Applicant,
      (apps.filterMap candOf).length = apps.countP scoreable := by
  intro apps
  induction apps with
  | nil => simp
  | cons a rest ih =>
      cases hc : candOf a with
      | none =>
          have hs : scoreable a = false := by
            have hi := candOf_isSome a
            rw [hc] at hi
            simpa using hi.symm
          simp [List.filterMap_cons, hc, List.countP_cons, hs, ih]
      | some cand =>
          have hs : scoreable a = true := by
            have hi := candOf_isSome a
            rw [hc] at hi
            simpa using hi.symm
          simp [List.filterMap_cons, hc, List.countP_cons, hs, ih]

/-- Counterexample to C9: one applicant holds a nonempty latest resume but
its pipeline raises (no extractable text), so the returned ranking is empty
while the count of applicants with a nonempty latest resume is one. -/
theorem ranking_length_counterexample :
    ((run_ai_matching 1 [aFail] stEmpty).2.length = 0) ∧
    (([aFail].filter
        (fun a => a.resume ≠ none ∧ a.resume ≠ some [])).length = 1) ∧
    ((run_ai_matching 1 [aFail] stEmpty).2.length ≠
      ([aFail].filter
        (fun a => a.resume ≠ none ∧ a.resume ≠ some [])).length) := by
  have hf : Fresh stEmpty := by intro t ht; simp [stEmpty] at ht
  have h := run_ai_matching_spec 1 [aFail] stEmpty hf
  have hcand : List.filterMap candOf [aFail] = [] := by
    have hc : candOf aFail = none := by rfl
    simp [List.filterMap_cons, hc]
  have hzero : (run_ai_matching 1 [aFail] stEmpty).2.length = 0 := by
    rw [h]
    dsimp only
    rw [hcand]
    simp [sortByScoreDesc]
  have hone : ([aFail].filter
      (fun a => a.resume ≠ none ∧ a.resume ≠ some [])).length = 1 := by decide
  refine ⟨hzero, hone, ?_⟩
  rw [hzero, hone]
  decide

/-- C9 as amended: an applicant with a missing consultant, no latest resume
or an empty latest resume is skipped silently (no entry, no row, no error),
and the returned ranking's length equals the count of applicants whose
consultant exists, whose latest resume is nonempty and whose pipeline
succeeded — pipeline failures also contribute nothing. -/
theorem ranking_counts_scored (job : ℕ) (apps : List Applicant)
    (st : OrchestratorState) (hf : Fresh st) :
    (run_ai_matching job apps st).2.length = apps.countP scoreable ∧
    (∀ a : Applicant, (a.resume = none ∨ a.resume = some []) →
      candOf a = none ∧ rowOf job a = none) := by
  constructor
  · rw [run_ai_matching_spec job apps st hf]
    dsimp only
    rw [sortByScoreDesc, List.length_mergeSort]
    exact length_filterMap_candOf apps
  · intro a h
    rcases a with ⟨cid, copt, ropt, pip⟩
    simp only at h
    rcases h with h | h <;> subst h <;>
      cases copt <;> cases pip <;> simp [candOf, rowOf]

/-- an applicant whose latest resume row exists but has empty bytes. -/
def aEmptyResume : Applicant :=
  { consultant_id := 3,
    consultant := some { name := "Cy", primary_email := "cy@example.com" },
    resume := some [],
    pipeline := Except.ok mOut }

/-- Witness for C9's amended statement on concrete inputs: the failed
applicant's batch returns a ranking of length countP scoreable, and an
empty-resume applicant is skipped with no entry and no row. -/
theorem ranking_counts_scored_witness :
    (run_ai_matching 1 [aFail] stEmpty).2.length = [aFail].countP scoreable ∧
    (candOf aEmptyResume = none ∧ rowOf 1 aEmptyResume = none) :=
  ⟨(ranking_counts_scored 1 [aFail] stEmpty
      (by intro t ht; simp [stEmpty] at ht)).1,
   (ranking_counts_scored 1 [aFail] stEmpty
      (by intro t ht; simp [stEmpty] at ht)).2 aEmptyResume (Or.inr rfl)⟩
